import Mathlib

/-!
Verification development for the local-first encrypted notes application.

The embedding translates the relevant source modules:
  * `src/services/encryption.js`  (EncryptionService: AES field codec over CryptoJS)
  * `src/services/indexedDB.js`   (NotesDatabase: Dexie-backed local store and sync drain)
  * `src/hooks/useNotes` flow     (createNote offline path, syncNotes drain callback)

External libraries (CryptoJS AES, JSON, Dexie) are modelled symbolically:
  * An AES ciphertext string `CryptoJS.AES.encrypt(pt, key).toString()` is represented
    by the constructor `JSStr.aes key nonce pt`: a fresh random salt/IV per call makes
    every call produce a distinct string, and decryption with the exact key recovers
    the plaintext (CryptoJS round-trips any string).  Decryption with a *different*
    key performs raw CBC decryption with no integrity check: the resulting bytes are
    unpredictable garbage whose Pkcs7-unpad + UTF-8 decode either throws
    ("Malformed UTF-8 data") or yields some string (often the empty string, when the
    garbage pad byte consumes the remaining length).  That outcome is therefore an
    explicit parameter `wrongKeyDecode` of the decryption functions.
  * `JSON.stringify` on an array of strings is `JSStr.jsonArr`; `JSON.parse` inverts
    it (a property of the real JSON library for arrays of strings).
  * Dexie tables are association lists; the auto-increment `++id` primary key of the
    `pendingSync` table is an explicit counter; `toArray` returns rows in ascending
    primary-key order, modelled by a stable insertion sort on `id`.
-/

/-- A JavaScript string value, kept symbolic so that ciphertext structure and JSON
structure remain visible to the model.  `str v` is an ordinary string literal;
`jsonArr tags` is `JSON.stringify` of an array of strings (always non-empty text);
`jsonOfStr s` is `JSON.stringify` of a string value (always non-empty text);
`aes key nonce pt` is the CryptoJS AES envelope produced from plaintext `pt` under
`key` with per-call randomness `nonce` (always non-empty text: it carries the
`Salted__` header in base64). -/
inductive JSStr where
  | str (v : String)
  | jsonArr (tags : List String)
  | jsonOfStr (s : JSStr)
  | aes (key : String) (nonce : Nat) (pt : JSStr)
deriving DecidableEq, Repr

/-- JavaScript truthiness of a string value: only the empty string is falsy. -/
def jsTruthy : JSStr → Bool
  | .str v => v ≠ ""
  | .jsonArr _ => true
  | .jsonOfStr _ => true
  | .aes _ _ _ => true

/-- The idiom `x || ''` applied to a string value. -/
def orEmptyStr (s : JSStr) : JSStr :=
  if jsTruthy s then s else .str ""

/-- The dynamic value held by a note's `tags` property: a string (`typeof === 'string'`),
an array of strings, or absent/null. -/
inductive TagsVal where
  | strv (s : JSStr)
  | arr (l : List String)
  | undef
deriving DecidableEq, Repr

/-- JavaScript truthiness of a `tags` value: arrays are always truthy (even `[]`),
strings are truthy when non-empty, `undefined`/`null` is falsy. -/
def tagsTruthy : TagsVal → Bool
  | .strv s => jsTruthy s
  | .arr _ => true
  | .undef => false

/-- `JSON.stringify(noteData.tags || [])` from `encryptNote` (encryption.js line 82):
a falsy tags value is replaced by `[]` before serialization. -/
def tagsStringify : TagsVal → JSStr
  | .arr l => .jsonArr l
  | .undef => .jsonArr []
  | .strv s => if jsTruthy s then .jsonOfStr s else .jsonArr []

/-- `JSON.parse` of a string value, returning the parsed JavaScript value or `none`
when parsing throws.  Of the symbolic string forms, `jsonArr` parses back to its
array, `jsonOfStr` parses back to its string, the literal `"[]"` parses to the empty
array, and other plain text (including a raw AES envelope, whose base64 body is not
valid JSON) throws. -/
def jsonParseVal : JSStr → Option TagsVal
  | .str v => if v = "[]" then some (.arr []) else none
  | .jsonArr l => some (.arr l)
  | .jsonOfStr s => some (.strv s)
  | .aes _ _ _ => none

/-- `CryptoJS.AES.decrypt(ct, key).toString(CryptoJS.enc.Utf8)`.
With the key that produced the envelope this recovers the plaintext.  With any other
key (or on a non-envelope input) CBC decryption yields unpredictable bytes; the
outcome of unpadding + UTF-8 decoding is supplied by `wrongKeyDecode`: `none` means
the decode throws (`Malformed UTF-8 data`), `some s` means it silently yields the
string `s` (CryptoJS has no integrity check, and `s` is frequently the empty
string). -/
def aesDecrypt (wrongKeyDecode : JSStr → String → Option JSStr) (ct : JSStr)
    (key : String) : Option JSStr :=
  match ct with
  | .aes k0 _ pt => if key = k0 then some pt else wrongKeyDecode ct key
  | other => wrongKeyDecode other key

/-- The key-recovery prologue shared by `encryptNote` and `decryptNote`
(encryption.js lines 65-76 and 114-125): use `this.masterKey` if set, otherwise try
`sessionStorage.getItem('encKey')`, otherwise throw. -/
def resolveKey (masterKey sessionKey : Option String) : Except String String :=
  match masterKey with
  | some k => .ok k
  | none =>
    match sessionKey with
    | some k => .ok k
    | none => .error "Encryption key not set. Please log in again."

/-- A note record as it flows through the application: the dynamic JavaScript object
with the properties touched by the embedded code paths.  `syncStatus` and
`localUpdatedAt` are `Option` because fresh note objects do not carry them until
assigned. -/
structure NoteRec where
  id : String := ""
  userId : String := ""
  title : JSStr := .str ""
  content : JSStr := .str ""
  tags : TagsVal := .undef
  createdAt : String := ""
  updatedAt : String := ""
  encrypted : Bool := false
  syncStatus : Option String := none
  localUpdatedAt : Option String := none
deriving DecidableEq, Repr

/-- `EncryptionService.encryptNote(noteData)` (encryption.js lines 64-110): resolve
the session key, coerce title/content with `(x || '').toString()`, serialize tags
with `JSON.stringify(noteData.tags || [])`, AES-encrypt all three with fresh
randomness (`nonce`, `nonce+1`, `nonce+2`), and return the note with the three
sensitive fields replaced and `encrypted: true`; all other properties are spread
through unchanged. -/
def encryptNote (masterKey sessionKey : Option String) (nonce : Nat)
    (noteData : NoteRec) : Except String NoteRec := do
  let key ← resolveKey masterKey sessionKey
  return { noteData with
    title := .aes key nonce (orEmptyStr noteData.title)
    content := .aes key (nonce + 1) (orEmptyStr noteData.content)
    tags := .strv (.aes key (nonce + 2) (tagsStringify noteData.tags))
    encrypted := true }

/-- The body of `decryptNote`'s `try` block (encryption.js lines 131-173): decrypt
title and content (a UTF-8 decode throw propagates to the outer catch, modelled as
`none`), decrypt and JSON-parse the tags under an inner catch that falls back to
`[]`, then apply the validation at lines 162-165: if both decrypted fields are empty
while both encrypted inputs are truthy, throw `Invalid decryption key` (also
`none`).  Otherwise return the note with decrypted fields and `encrypted: false`. -/
def decryptNoteBody (wrongKeyDecode : JSStr → String → Option JSStr) (key : String)
    (noteData : NoteRec) : Option NoteRec := do
  let decryptedTitle ← aesDecrypt wrongKeyDecode noteData.title key
  let decryptedContent ← aesDecrypt wrongKeyDecode noteData.content key
  let decryptedTags : TagsVal :=
    if tagsTruthy noteData.tags then
      match noteData.tags with
      | .strv s =>
        match aesDecrypt wrongKeyDecode s key with
        | none => .arr []
        | some ds =>
          match (if jsTruthy ds then jsonParseVal ds else jsonParseVal (.str "[]")) with
          | none => .arr []
          | some v => v
      | .arr l => .arr l
      | .undef => .arr []
    else .arr []
  if !jsTruthy decryptedTitle && !jsTruthy decryptedContent &&
      jsTruthy noteData.title && jsTruthy noteData.content then
    none
  else
    some { noteData with
      title := orEmptyStr decryptedTitle
      content := orEmptyStr decryptedContent
      tags := decryptedTags
      encrypted := false }

/-- `EncryptionService.decryptNote(noteData)` (encryption.js lines 113-178): resolve
the session key first (lines 114-125, throwing when none is available), then — only
after that check — return the note unchanged when `noteData.encrypted` is falsy
(lines 127-129); otherwise run the decryption body, converting any throw inside the
`try` into the single catch-all error of lines 174-177. -/
def decryptNote (masterKey sessionKey : Option String)
    (wrongKeyDecode : JSStr → String → Option JSStr) (noteData : NoteRec) :
    Except String NoteRec := do
  let key ← resolveKey masterKey sessionKey
  if !noteData.encrypted then
    return noteData
  else
    match decryptNoteBody wrongKeyDecode key noteData with
    | some n => return n
    | none => .error "Failed to decrypt note - check your encryption password"

/-- `EncryptionService.decryptString(encryptedText)` (encryption.js lines 189-195):
throw when no master key is set (no session-storage recovery here), otherwise return
`bytes.toString(CryptoJS.enc.Utf8)` with no validation whatsoever; a UTF-8 decode
throw propagates to the caller. -/
def decryptString (masterKey : Option String)
    (wrongKeyDecode : JSStr → String → Option JSStr) (encryptedText : JSStr) :
    Except String JSStr :=
  match masterKey with
  | none => .error "Encryption key not set"
  | some k =>
    match aesDecrypt wrongKeyDecode encryptedText k with
    | none => .error "Malformed UTF-8 data"
    | some s => .ok s

/-- A row of the `pendingSync` table.  `addToPendingSync` (indexedDB.js lines 78-89)
writes the object literal `{ noteId, action, timestamp }` and Dexie assigns the
auto-increment primary key `id`; the literal has **no** payload property, so reading
`operation.data` on a queued row yields `undefined`, modelled by the `data` field
being `none` on every row the code ever enqueues. -/
structure PendingOp where
  id : Nat
  noteId : String
  action : String
  timestamp : String
  data : Option NoteRec := none
deriving DecidableEq, Repr

/-- A row of the `encryptionKeys` table (primary key `userId`). -/
structure SaltRec where
  userId : String
  salt : String
  timestamp : String
deriving DecidableEq, Repr

/-- The state of the Dexie database `ConfidentialNotesDB` (indexedDB.js lines 8-17):
the `notes` table keyed by `id`, the `pendingSync` table with auto-increment key
(Dexie `++id` counters start at 1), and the `encryptionKeys` table keyed by
`userId`. -/
structure DB where
  notes : List NoteRec := []
  pendingSync : List PendingOp := []
  nextPendingId : Nat := 1
  encryptionKeys : List SaltRec := []
deriving DecidableEq, Repr

/-- Dexie `table.put` on the `notes` table: upsert by the primary key `id`. -/
def putNote (notes : List NoteRec) (n : NoteRec) : List NoteRec :=
  if notes.any (fun m => m.id = n.id) then
    notes.map (fun m => if m.id = n.id then n else m)
  else
    notes ++ [n]

/-- `NotesDatabase.saveNoteLocally(note)` (indexedDB.js lines 20-32): put
`{...note, syncStatus: 'synced', localUpdatedAt: now}` — the `syncStatus` of the
stored row is unconditionally `'synced'`, overwriting whatever the caller set. -/
def saveNoteLocally (db : DB) (note : NoteRec) (now : String) : DB :=
  let stored := { note with syncStatus := some "synced", localUpdatedAt := some now }
  { db with notes := putNote db.notes stored }

/-- `NotesDatabase.getLocalNotes(userId)` (indexedDB.js lines 35-47):
`where('userId').equals(userId).reverse().sortBy('updatedAt')` — the owner's rows
ordered by `updatedAt` descending. -/
def getLocalNotes (db : DB) (userId : String) : List NoteRec :=
  List.insertionSort (fun a b => b.updatedAt ≤ a.updatedAt)
    (db.notes.filter (fun n => n.userId = userId))

/-- `NotesDatabase.addToPendingSync(noteId, action)` (indexedDB.js lines 78-89):
append `{ noteId, action, timestamp }` to the `pendingSync` table; Dexie assigns the
next auto-increment id. -/
def addToPendingSync (db : DB) (noteId action now : String) : DB :=
  { db with
    pendingSync := db.pendingSync ++
      [{ id := db.nextPendingId, noteId := noteId, action := action,
         timestamp := now }]
    nextPendingId := db.nextPendingId + 1 }

/-- `NotesDatabase.updateNoteLocally(noteId, updates)` (indexedDB.js lines 50-64):
Dexie `update` merges `{...updates, syncStatus: 'pending', localUpdatedAt: now}`
into the row with that id (no-op when the row is absent), then queues an `update`
operation.  `updates` is the encrypted note object built by the caller; its `id`
and `createdAt` are not part of the merge payload. -/
def updateNoteLocally (db : DB) (noteId : String) (updates : NoteRec) (now : String) :
    DB :=
  let merged := { db with notes := db.notes.map (fun m =>
    if m.id = noteId then
      { m with title := updates.title, content := updates.content,
               tags := updates.tags, userId := updates.userId,
               updatedAt := updates.updatedAt, encrypted := updates.encrypted,
               syncStatus := some "pending", localUpdatedAt := some now }
    else m) }
  addToPendingSync merged noteId "update" now

/-- `NotesDatabase.deleteNoteLocally(noteId)` (indexedDB.js lines 67-75): delete the
row, then queue a `delete` operation. -/
def deleteNoteLocally (db : DB) (noteId now : String) : DB :=
  addToPendingSync
    { db with notes := db.notes.filter (fun m => m.id ≠ noteId) } noteId "delete" now

/-- `NotesDatabase.getPendingSync()` (indexedDB.js lines 92-99):
`pendingSync.toArray()` — Dexie returns the rows in ascending primary-key order
(stable), modelled by a stable insertion sort on `id`. -/
def getPendingSync (db : DB) : List PendingOp :=
  List.insertionSort (fun a b => a.id ≤ b.id) db.pendingSync

/-- `NotesDatabase.clearPendingSync(ids)` (indexedDB.js lines 102-109):
`pendingSync.bulkDelete(ids)` — remove exactly the rows whose primary key is in
`ids`. -/
def clearPendingSync (db : DB) (ids : List Nat) : DB :=
  { db with pendingSync := db.pendingSync.filter (fun op => op.id ∉ ids) }

/-- `NotesDatabase.saveEncryptionSalt(userId, salt)` (indexedDB.js lines 112-123):
put (upsert by `userId`) into the `encryptionKeys` table. -/
def saveEncryptionSalt (db : DB) (userId salt now : String) : DB :=
  { db with encryptionKeys :=
      if db.encryptionKeys.any (fun r => r.userId = userId) then
        db.encryptionKeys.map (fun r =>
          if r.userId = userId then ⟨userId, salt, now⟩ else r)
      else
        db.encryptionKeys ++ [⟨userId, salt, now⟩] }

/-- `NotesDatabase.getEncryptionSalt(userId)` (indexedDB.js lines 126-134): get by
primary key; `key ? key.salt : null`. -/
def getEncryptionSalt (db : DB) (userId : String) : Option String :=
  (db.encryptionKeys.find? (fun r => r.userId = userId)).map (fun r => r.salt)

/-- `NotesDatabase.clearUserData(userId)` (indexedDB.js lines 137-153): one Dexie
`'rw'` transaction over the three tables that deletes the user's notes, clears the
**whole** `pendingSync` table, and deletes the user's `encryptionKeys` row.  A Dexie
transaction commits all of its writes or rolls all of them back; `txFails = true`
models a transaction that aborts (the state is left unchanged and the error is
rethrown, reported here as the `Bool` component `false`). -/
def clearUserData (txFails : Bool) (db : DB) (userId : String) : DB × Bool :=
  if txFails then (db, false)
  else
    ({ db with
        notes := db.notes.filter (fun n => n.userId ≠ userId)
        pendingSync := []
        encryptionKeys := db.encryptionKeys.filter (fun r => r.userId ≠ userId) },
     true)

/-- The `{total, synced, failed}` report returned by `syncWithFirebase`
(indexedDB.js lines 174-178). -/
structure SyncReport where
  total : Nat
  synced : Nat
  failed : Nat
deriving DecidableEq, Repr

/-- The result of one drain: the database, the evolved remote-side state, the
operations that were passed to `syncFunction` in order (instrumentation recording
each loop iteration of indexedDB.js lines 161-168), and the report. -/
structure SyncResult (σ : Type) where
  db : DB
  remote : σ
  attempted : List PendingOp
  report : SyncReport

/-- The `for (const operation of pending)` loop of `syncWithFirebase` (indexedDB.js
lines 161-168): call `syncFunction` on every operation in order; a success pushes
the operation's id onto `syncedIds`, a throw is caught and logged, and the loop
continues either way.  Returns the final remote state, `syncedIds`, and the ordered
list of operations attempted. -/
def drainGo (f : σ → PendingOp → Option σ) :
    List PendingOp → σ → σ × List Nat × List PendingOp
  | [], s => (s, [], [])
  | op :: rest, s =>
    match f s op with
    | some s1 =>
      let r := drainGo f rest s1
      (r.1, op.id :: r.2.1, op :: r.2.2)
    | none =>
      let r := drainGo f rest s
      (r.1, r.2.1, op :: r.2.2)

/-- `NotesDatabase.syncWithFirebase(syncFunction)` (indexedDB.js lines 156-183):
read the pending operations, attempt each one, remove the succeeded ids in one
`clearPendingSync` batch (skipped when none succeeded), and report
`{total: pending.length, synced: syncedIds.length, failed: pending.length -
syncedIds.length}`.  `syncFunction` is the caller-supplied async callback, modelled
as a state transformer on a remote-side state `σ` that returns `none` when the
remote call throws. -/
def syncWithFirebase (f : σ → PendingOp → Option σ) (db : DB) (s : σ) :
    SyncResult σ :=
  let pending := getPendingSync db
  let r := drainGo f pending s
  let syncedIds := r.2.1
  let db1 := if syncedIds.length > 0 then clearPendingSync db syncedIds else db
  { db := db1, remote := r.1, attempted := r.2.2,
    report := { total := pending.length, synced := syncedIds.length,
                failed := pending.length - syncedIds.length } }

/-- One call recorded against the remote store (firebase.js wrappers): its kind,
the user id passed, the note id when the wrapper takes one, and the payload
argument (`none` models JavaScript `undefined`). -/
structure RemoteCall where
  kind : String
  userId : String
  noteId : Option String
  payload : Option NoteRec
deriving DecidableEq, Repr

/-- The drain callback of `useNotes.syncNotes` (part_001 lines 397-406): dispatch on
`operation.action`, calling `saveNote(user.uid, operation.data)`,
`updateNote(user.uid, operation.noteId, operation.data)`, or
`deleteNote(user.uid, operation.noteId)`.  The remote side is modelled as the log of
calls it receives, every call succeeding. -/
def useNotesSyncFn (uid : String) (log : List RemoteCall) (op : PendingOp) :
    Option (List RemoteCall) :=
  if op.action = "create" then
    some (log ++ [{ kind := "create", userId := uid, noteId := none,
                    payload := op.data }])
  else if op.action = "update" then
    some (log ++ [{ kind := "update", userId := uid, noteId := some op.noteId,
                    payload := op.data }])
  else if op.action = "delete" then
    some (log ++ [{ kind := "delete", userId := uid, noteId := some op.noteId,
                    payload := none }])
  else
    some log

/-- The offline branch of `useNotes.createNote` (part_001 lines 296-334, identical
to `NoteEditor.handleSave`'s create branch in part_003 lines 98-111): stamp
`userId`/`createdAt`/`updatedAt`, encrypt, assign a temporary offline id, set
`syncStatus = 'pending'` on the in-memory object, and hand it to
`saveNoteLocally`.  No pending operation is enqueued on this path. -/
def createNoteOffline (masterKey sessionKey : Option String) (nonce : Nat)
    (uid : String) (noteData : NoteRec) (tempId now localNow : String) (db : DB) :
    Except String (String × DB) := do
  let newNote := { noteData with userId := uid, createdAt := now, updatedAt := now }
  let encryptedNote ← encryptNote masterKey sessionKey nonce newNote
  let encryptedNote :=
    { encryptedNote with id := tempId, syncStatus := some "pending" }
  return (tempId, saveNoteLocally db encryptedNote localNow)

/-- Well-formedness of the pending queue, established by Dexie's auto-increment key:
the stored ids are strictly increasing in insertion order and all below the next
counter value.  Every database reachable from a fresh store through the embedded
operations satisfies it. -/
def PendingWF (db : DB) : Prop :=
  List.Sorted (· < ·) (db.pendingSync.map (fun op => op.id)) ∧
  ∀ op ∈ db.pendingSync, op.id < db.nextPendingId

instance (db : DB) : Decidable (PendingWF db) := by
  unfold PendingWF List.Sorted
  infer_instance

/-- The drain loop attempts every pending operation, in list order, whether or not
earlier ones failed. -/
theorem drainGo_attempted {σ : Type} (f : σ → PendingOp → Option σ) :
    ∀ (l : List PendingOp) (s : σ), (drainGo f l s).2.2 = l := by
  intro l
  induction l with
  | nil => intro s; rfl
  | cons op rest ih =>
    intro s
    simp only [drainGo]
    cases f s op with
    | some s1 => simp [ih s1]
    | none => simp [ih s]

/-- The ids collected by the drain loop form a sublist of the pending ids, in
order. -/
theorem drainGo_ids_sublist {σ : Type} (f : σ → PendingOp → Option σ) :
    ∀ (l : List PendingOp) (s : σ),
      (drainGo f l s).2.1.Sublist (l.map (fun op => op.id)) := by
  intro l
  induction l with
  | nil => intro s; simp [drainGo]
  | cons op rest ih =>
    intro s
    simp only [drainGo, List.map_cons]
    cases f s op with
    | some s1 => exact List.Sublist.cons₂ _ (ih s1)
    | none => exact List.Sublist.cons _ (ih s)

/-- Strictly increasing ids give a queue sorted under the comparator used by
`getPendingSync`. -/
theorem sorted_ids_le {l : List PendingOp}
    (h : List.Sorted (· < ·) (l.map (fun op => op.id))) :
    List.Sorted (fun a b : PendingOp => a.id ≤ b.id) l := by
  have h' := List.pairwise_map.mp h
  exact h'.imp (fun hab => le_of_lt hab)

/-- Under the auto-increment invariant, reading the queue back returns exactly the
stored rows in insertion order. -/
theorem getPendingSync_eq_of_wf {db : DB} (h : PendingWF db) :
    getPendingSync db = db.pendingSync :=
  (sorted_ids_le h.1).insertionSort_eq

/-- `x || ''` is the identity on plain string values (the empty string maps to
itself). -/
theorem orEmptyStr_str (t : String) : orEmptyStr (.str t) = .str t := by
  by_cases h : t = "" <;> simp [orEmptyStr, jsTruthy, h]

/-- C1: evaluation of the code at the failing input.  An offline update of note
`n1` stores only `{noteId, action, timestamp}` in the queue — the row's payload
property is `undefined` — and the subsequent drain replays the `update` against the
remote store with an `undefined` payload instead of the encrypted note that was
being mirrored. -/
theorem c1_queuedOperation_payload_undefined :
    let payload : NoteRec :=
      { title := .aes "k" 0 (.str "T"), content := .aes "k" 1 (.str "C"),
        tags := .strv (.aes "k" 2 (.jsonArr [])), userId := "u1",
        updatedAt := "t1", encrypted := true }
    let db0 : DB := { notes := [{ id := "n1", userId := "u1" }] }
    let db1 := updateNoteLocally db0 "n1" payload "t1"
    db1.pendingSync.map (fun op => op.data) = [none] ∧
    (syncWithFirebase (useNotesSyncFn "u1") db1 ([] : List RemoteCall)).remote =
      [{ kind := "update", userId := "u1", noteId := some "n1",
         payload := none }] ∧
    (some payload : Option NoteRec) ≠ none := by
  refine ⟨by decide, by decide, by decide⟩

/-- C2: evaluation of the code at the failing input.  Creating the note
`{title: "Shopping", content: "milk, eggs"}` while offline stores it with
`syncStatus = 'synced'` (the `'pending'` set by `createNote` is overwritten by
`saveNoteLocally`), queues **no** pending operation, and the drain after coming
back online therefore performs zero remote calls. -/
theorem c2_offlineCreate_marked_synced_and_not_queued :
    (createNoteOffline (some "k") none 0 "u1"
        { title := .str "Shopping", content := .str "milk, eggs", tags := .arr [] }
        "offline_1" "t0" "t1" {}).map
      (fun r => (r.2.notes.map (fun n => n.syncStatus), r.2.pendingSync,
        (syncWithFirebase (useNotesSyncFn "u1") r.2 ([] : List RemoteCall)).report,
        (syncWithFirebase (useNotesSyncFn "u1") r.2 ([] : List RemoteCall)).remote))
    = .ok ([some "synced"], [], { total := 0, synced := 0, failed := 0 }, []) := rfl

/-- C3 (counterexample): the round trip is broken on the note whose title and
content are both empty strings — `decryptNote` hits the validation at
encryption.js lines 162-165 (both decrypted fields empty while both ciphertext
inputs are non-empty) and throws, even though the key is correct. -/
theorem c3_roundTrip_fails_on_empty_note :
    (do
      let e ← encryptNote (some "k") none 0
        { title := .str "", content := .str "", tags := .arr [] }
      decryptNote (some "k") none (fun _ _ => none) e)
    = .error "Failed to decrypt note - check your encryption password" := rfl

/-- C3 (amended): for every note whose title and content are strings and whose tags
are a list of strings, and every key, decrypting the encryption of the note with
the same key returns the note with title, content and tags (and all metadata)
unchanged and the `encrypted` flag cleared — **provided** the title and the content
are not both empty (the code's wrong-key heuristic rejects that one case). -/
theorem c3_encrypt_decrypt_roundTrip (k : String) (sessionKey : Option String)
    (wk : JSStr → String → Option JSStr) (nonce : Nat) (n : NoteRec)
    (t c : String) (l : List String)
    (ht : n.title = .str t) (hc : n.content = .str c) (htags : n.tags = .arr l)
    (hne : t ≠ "" ∨ c ≠ "") :
    (encryptNote (some k) sessionKey nonce n).bind
      (decryptNote (some k) sessionKey wk) = .ok { n with encrypted := false } := by
  obtain ⟨nid, nuid, ntitle, ncontent, ntags, ncr, nup, nenc, nss, nlu⟩ := n
  simp only [NoteRec.mk.injEq] at ht hc htags ⊢
  subst ht hc htags
  simp only [encryptNote, decryptNote, decryptNoteBody, resolveKey, aesDecrypt,
    orEmptyStr_str, tagsStringify, tagsTruthy, jsTruthy, jsonParseVal,
    Except.bind, bind, Option.bind, pure, Except.pure, if_pos rfl]
  rcases hne with h1 | h1
  · simp [jsTruthy, orEmptyStr_str, h1]
  · simp [jsTruthy, orEmptyStr_str, h1]

/-- C3 (witness): the round trip at a concrete note and key. -/
theorem c3_encrypt_decrypt_roundTrip_witness :
    (encryptNote (some "key1") none 7
        { title := .str "Shopping", content := .str "milk, eggs",
          tags := .arr ["food"] }).bind
      (decryptNote (some "key1") none (fun _ _ => none)) =
    .ok { title := .str "Shopping", content := .str "milk, eggs",
          tags := .arr ["food"], encrypted := false } :=
  c3_encrypt_decrypt_roundTrip "key1" none (fun _ _ => none) 7 _ "Shopping"
    "milk, eggs" ["food"] rfl rfl rfl (Or.inl (by decide))

/-- C4 (counterexample): `decryptString` performs no validation at all; when
wrong-key CBC decryption happens to unpad/decode to the empty string (a frequent
CryptoJS outcome, since a garbage pad byte at least the remaining length truncates
everything), the empty string is returned as a successful result even though the
encrypted input is non-empty and the key (`k2`) differs from the one that produced
the envelope (`k1`). -/
theorem c4_decryptString_silent_empty_on_wrong_key :
    ("k2" ≠ "k1") ∧
    jsTruthy (JSStr.aes "k1" 0 (.str "secret")) = true ∧
    decryptString (some "k2") (fun _ _ => some (.str ""))
      (.aes "k1" 0 (.str "secret")) = .ok (.str "") := by
  refine ⟨by decide, rfl, rfl⟩

/-- C4 (amended): `decryptNote` (not `decryptString`) fails with a decryption error
on a wrong key whenever the wrong-key decode of the title or the content throws on
UTF-8 decoding, or both decode to empty strings (the validation of encryption.js
lines 162-165, the encrypted inputs being non-empty ciphertexts); outside those
outcomes — and always in `decryptString` — wrong-key garbage can be returned
silently. -/
theorem c4_decryptNote_wrongKey_error (k1 k2 : String) (sessionKey : Option String)
    (wk : JSStr → String → Option JSStr) (n : NoteRec) (m1 m2 : Nat) (p1 p2 : JSStr)
    (ht : n.title = .aes k1 m1 p1) (hc : n.content = .aes k1 m2 p2)
    (henc : n.encrypted = true) (hk : k2 ≠ k1)
    (hout : wk n.title k2 = none ∨ wk n.content k2 = none ∨
      (∃ a b, wk n.title k2 = some a ∧ wk n.content k2 = some b ∧
        jsTruthy a = false ∧ jsTruthy b = false)) :
    decryptNote (some k2) sessionKey wk n =
      .error "Failed to decrypt note - check your encryption password" := by
  simp only [decryptNote, decryptNoteBody, resolveKey, aesDecrypt, henc,
    Except.bind, bind, Option.bind, pure, Except.pure, ht, hc, if_neg hk,
    Bool.not_true, Bool.false_and, ite_false, ite_true]
  rcases hout with h1 | h1 | ⟨a, b, ha, hb, hta, htb⟩
  · rw [ht] at h1; simp [h1]
  · rw [hc] at h1; simp [h1]
    cases hwt : wk (JSStr.aes k1 m1 p1) k2 <;> simp
  · rw [ht] at ha; rw [hc] at hb
    simp only [ha, hb, Option.bind]
    cases a with
    | str va =>
      cases b with
      | str vb =>
        have hva : va = "" := by simpa [jsTruthy] using hta
        have hvb : vb = "" := by simpa [jsTruthy] using htb
        subst hva hvb
        simp [jsTruthy]
      | jsonArr l2 => simp [jsTruthy] at htb
      | jsonOfStr s2 => simp [jsTruthy] at htb
      | aes x y z => simp [jsTruthy] at htb
    | jsonArr l2 => simp [jsTruthy] at hta
    | jsonOfStr s2 => simp [jsTruthy] at hta
    | aes x y z => simp [jsTruthy] at hta

/-- C4 (witness): wrong-key decryption of a concrete encrypted note, where the
UTF-8 decode of the title garbage throws. -/
theorem c4_decryptNote_wrongKey_error_witness :
    decryptNote (some "k2") none (fun _ _ => none)
      { title := .aes "k1" 0 (.str "T"), content := .aes "k1" 1 (.str "C"),
        encrypted := true } =
    .error "Failed to decrypt note - check your encryption password" :=
  c4_decryptNote_wrongKey_error "k1" "k2" none (fun _ _ => none) _ 0 1
    (.str "T") (.str "C") rfl rfl rfl (by decide) (Or.inl rfl)

/-- C8 (counterexample): `decryptNote` on a note whose `encrypted` flag is false is
**not** unconditionally the identity: the session-key check of encryption.js lines
114-125 runs before the `if (!noteData.encrypted) return noteData` check of lines
127-129, so with no master key and no session-storage backup the call throws
`Encryption key not set` — it does not return the note — refuting the claim's
`regardless of any other condition`. -/
theorem c8_decryptNote_throws_without_key :
    decryptNote none none (fun _ _ => none)
      { id := "n1", title := .str "hello", encrypted := false }
      = .error "Encryption key not set. Please log in again." ∧
    decryptNote none none (fun _ _ => none)
      { id := "n1", title := .str "hello", encrypted := false }
      ≠ .ok { id := "n1", title := .str "hello", encrypted := false } :=
  ⟨rfl, fun h => Except.noConfusion h⟩

/-- C8 (amended): whenever a master key is set (or recoverable from session
storage), `decryptNote` on a note whose `encrypted` flag is false returns the note
unchanged. -/
theorem c8_decryptNote_identity_on_unencrypted (masterKey sessionKey : Option String)
    (wk : JSStr → String → Option JSStr) (n : NoteRec) (hn : n.encrypted = false)
    (hkey : masterKey.isSome ∨ sessionKey.isSome) :
    decryptNote masterKey sessionKey wk n = .ok n := by
  rcases hout : masterKey with _ | k
  · rcases hsk : sessionKey with _ | k
    · rw [hout, hsk] at hkey; simp at hkey
    · simp [decryptNote, resolveKey, hn, Except.bind, bind, pure, Except.pure]
  · simp [decryptNote, resolveKey, hn, Except.bind, bind, pure, Except.pure]

/-- C8 (witness): the identity at a concrete unencrypted note with a key set. -/
theorem c8_decryptNote_identity_on_unencrypted_witness :
    decryptNote (some "k") none (fun _ _ => none)
      { id := "n1", title := .str "hello", encrypted := false } =
    .ok { id := "n1", title := .str "hello", encrypted := false } :=
  c8_decryptNote_identity_on_unencrypted (some "k") none (fun _ _ => none) _ rfl
    (Or.inl rfl)

/-- C5: the drain is best-effort with at-least-once semantics.  For any callback
and any well-formed queue: every pending operation is attempted, in order, whether
or not earlier ones failed; an operation whose replay failed stays in the queue
while every succeeded operation is removed (in the single `clearPendingSync`
batch); and the report is `{total, synced, failed}` with `total` the number of
operations read, `synced` the number of successful replays, and
`failed = total - synced`. -/
theorem c5_syncWithFirebase_bestEffort {σ : Type} (f : σ → PendingOp → Option σ)
    (db : DB) (s : σ) (h : PendingWF db) :
    (syncWithFirebase f db s).attempted = db.pendingSync ∧
    (∀ op ∈ db.pendingSync, op.id ∉ (drainGo f db.pendingSync s).2.1 →
      op ∈ (syncWithFirebase f db s).db.pendingSync) ∧
    (∀ op ∈ db.pendingSync, op.id ∈ (drainGo f db.pendingSync s).2.1 →
      op ∉ (syncWithFirebase f db s).db.pendingSync) ∧
    (syncWithFirebase f db s).report.total = db.pendingSync.length ∧
    (syncWithFirebase f db s).report.synced =
      (drainGo f db.pendingSync s).2.1.length ∧
    (syncWithFirebase f db s).report.failed =
      db.pendingSync.length - (drainGo f db.pendingSync s).2.1.length := by
  have hpend := getPendingSync_eq_of_wf h
  simp only [syncWithFirebase, hpend]
  refine ⟨drainGo_attempted f _ _, ?_, ?_, trivial, trivial, trivial⟩
  · intro op hop hid
    by_cases hlen : (drainGo f db.pendingSync s).2.1.length > 0
    · simp only [if_pos hlen, clearPendingSync, List.mem_filter]
      exact ⟨hop, by simpa using hid⟩
    · simp only [if_neg hlen]
      exact hop
  · intro op hop hid
    have hlen : (drainGo f db.pendingSync s).2.1.length > 0 := by
      cases hq : (drainGo f db.pendingSync s).2.1 with
      | nil => rw [hq] at hid; simp at hid
      | cons x xs => simp [hq]
    simp only [if_pos hlen, clearPendingSync, List.mem_filter]
    rintro ⟨-, hmem⟩
    simp at hmem
    exact hmem hid

/-- A drain callback for the C5 witness: the operation with id 1 fails, every
other remote call succeeds (counting the calls made). -/
def c5SyncFn : Nat → PendingOp → Option Nat :=
  fun s op => if op.id = 1 then none else some (s + 1)

/-- A two-operation queue for the C5 witness. -/
def c5Db : DB :=
  { pendingSync := [{ id := 1, noteId := "n1", action := "update",
                      timestamp := "t1" },
                    { id := 2, noteId := "n2", action := "delete",
                      timestamp := "t2" }],
    nextPendingId := 3 }

/-- C5 (witness): the drain properties at a concrete queue whose first operation
fails and whose second succeeds. -/
theorem c5_syncWithFirebase_bestEffort_witness :
    (syncWithFirebase c5SyncFn c5Db 0).attempted = c5Db.pendingSync ∧
    (∀ op ∈ c5Db.pendingSync, op.id ∉ (drainGo c5SyncFn c5Db.pendingSync 0).2.1 →
      op ∈ (syncWithFirebase c5SyncFn c5Db 0).db.pendingSync) ∧
    (∀ op ∈ c5Db.pendingSync, op.id ∈ (drainGo c5SyncFn c5Db.pendingSync 0).2.1 →
      op ∉ (syncWithFirebase c5SyncFn c5Db 0).db.pendingSync) ∧
    (syncWithFirebase c5SyncFn c5Db 0).report.total = c5Db.pendingSync.length ∧
    (syncWithFirebase c5SyncFn c5Db 0).report.synced =
      (drainGo c5SyncFn c5Db.pendingSync 0).2.1.length ∧
    (syncWithFirebase c5SyncFn c5Db 0).report.failed =
      c5Db.pendingSync.length - (drainGo c5SyncFn c5Db.pendingSync 0).2.1.length :=
  c5_syncWithFirebase_bestEffort c5SyncFn c5Db 0 (by decide)

/-- C6: the drain replays the queue in FIFO order.  For any callback and any
well-formed queue the sequence of operations handed to the callback is exactly the
stored queue in ascending-id (insertion) order; enqueueing preserves the
monotonic-id invariant (so FIFO order is enqueue order); and in the concrete
create-before-delete scenario the remote store receives the `create` call before
the `delete` call. -/
theorem c6_fifo_replay {σ : Type} (f : σ → PendingOp → Option σ) (db : DB) (s : σ)
    (h : PendingWF db) :
    (syncWithFirebase f db s).attempted = db.pendingSync ∧
    (∀ noteId action now, PendingWF (addToPendingSync db noteId action now)) ∧
    ((syncWithFirebase (useNotesSyncFn "u1")
        (addToPendingSync (addToPendingSync ({} : DB) "n1" "create" "t1")
          "n2" "delete" "t2")
        ([] : List RemoteCall)).remote.map (fun cl => cl.kind)
      = ["create", "delete"]) := by
  refine ⟨?_, ?_, by decide⟩
  · simp only [syncWithFirebase, getPendingSync_eq_of_wf h]
    exact drainGo_attempted f _ _
  · intro noteId action now
    obtain ⟨hsorted, hlt⟩ := h
    constructor
    · simp only [addToPendingSync, List.map_append, List.map_cons, List.map_nil]
      rw [List.Sorted, List.pairwise_append]
      refine ⟨hsorted, List.pairwise_singleton _ _, ?_⟩
      intro a ha b hb
      simp only [List.mem_singleton] at hb
      subst hb
      obtain ⟨op, hop, rfl⟩ := List.mem_map.mp ha
      exact hlt op hop
    · intro op hop
      simp only [addToPendingSync, List.mem_append, List.mem_singleton] at hop
      rcases hop with hop | hop
      · exact Nat.lt_succ_of_lt (hlt op hop)
      · subst hop
        exact Nat.lt_succ_self _

/-- C6 (witness): the FIFO properties at the empty store and the `useNotes`
callback. -/
theorem c6_fifo_replay_witness :
    (syncWithFirebase (useNotesSyncFn "u1") ({} : DB)
      ([] : List RemoteCall)).attempted = ({} : DB).pendingSync ∧
    (∀ noteId action now,
      PendingWF (addToPendingSync ({} : DB) noteId action now)) ∧
    ((syncWithFirebase (useNotesSyncFn "u1")
        (addToPendingSync (addToPendingSync ({} : DB) "n1" "create" "t1")
          "n2" "delete" "t2")
        ([] : List RemoteCall)).remote.map (fun cl => cl.kind)
      = ["create", "delete"]) :=
  c6_fifo_replay (useNotesSyncFn "u1") ({} : DB) ([] : List RemoteCall) (by decide)

/-- A drain over an empty queue does nothing: no callback calls, no database
change, report all zero. -/
theorem syncWithFirebase_of_empty_queue {σ : Type} (f : σ → PendingOp → Option σ)
    (db : DB) (s : σ) (hdb : db.pendingSync = []) :
    syncWithFirebase f db s =
      { db := db, remote := s, attempted := [],
        report := { total := 0, synced := 0, failed := 0 } } := by
  simp [syncWithFirebase, getPendingSync, hdb, List.insertionSort, drainGo]

/-- C7: queue idempotence.  If a drain reports no failures, the queue is left
empty, and a second drain run immediately afterwards performs zero callback calls,
reports `total = 0`, and changes neither the database nor the remote side. -/
theorem c7_drain_idempotent {σ : Type} (f : σ → PendingOp → Option σ) (db : DB)
    (s : σ) (h : PendingWF db)
    (hall : (syncWithFirebase f db s).report.failed = 0) :
    (syncWithFirebase f db s).db.pendingSync = [] ∧
    (syncWithFirebase f (syncWithFirebase f db s).db
      (syncWithFirebase f db s).remote).report.total = 0 ∧
    (syncWithFirebase f (syncWithFirebase f db s).db
      (syncWithFirebase f db s).remote).attempted = [] ∧
    (syncWithFirebase f (syncWithFirebase f db s).db
      (syncWithFirebase f db s).remote).db = (syncWithFirebase f db s).db ∧
    (syncWithFirebase f (syncWithFirebase f db s).db
      (syncWithFirebase f db s).remote).remote =
        (syncWithFirebase f db s).remote := by
  have hpend := getPendingSync_eq_of_wf h
  have hsub := drainGo_ids_sublist f db.pendingSync s
  have hfail : db.pendingSync.length - (drainGo f db.pendingSync s).2.1.length
      = 0 := by
    simpa [syncWithFirebase, hpend] using hall
  have hle : db.pendingSync.length ≤ (drainGo f db.pendingSync s).2.1.length :=
    Nat.sub_eq_zero_iff_le.mp hfail
  have hids : (drainGo f db.pendingSync s).2.1 =
      db.pendingSync.map (fun op => op.id) := by
    refine hsub.eq_of_length_le ?_
    simpa using hle
  have hempty : (syncWithFirebase f db s).db.pendingSync = [] := by
    by_cases hlen : (drainGo f db.pendingSync s).2.1.length > 0
    · simp only [syncWithFirebase, hpend, if_pos hlen, clearPendingSync]
      refine List.filter_eq_nil_iff.mpr ?_
      intro op hop
      simp only [Bool.not_eq_true, decide_eq_false_iff_not, Decidable.not_not]
      rw [hids]
      exact List.mem_map.mpr ⟨op, hop, rfl⟩
    · have hq : db.pendingSync = [] := by
        have hz : (drainGo f db.pendingSync s).2.1.length = 0 :=
          Nat.eq_zero_of_not_pos hlen
        have hlp : db.pendingSync.length = 0 :=
          Nat.le_antisymm (hz ▸ hle) (Nat.zero_le _)
        exact List.length_eq_zero.mp hlp
      simp only [syncWithFirebase, hpend, if_neg hlen]
      exact hq
  refine ⟨hempty, ?_, ?_, ?_, ?_⟩ <;>
    rw [syncWithFirebase_of_empty_queue f _ _ hempty]

/-- A drain callback for the C7 witness: every remote call succeeds. -/
def c7SyncFn : Nat → PendingOp → Option Nat := fun s _ => some (s + 1)

/-- A one-operation queue for the C7 witness. -/
def c7Db : DB :=
  { pendingSync := [{ id := 1, noteId := "n1", action := "delete",
                      timestamp := "t1" }],
    nextPendingId := 2 }

/-- C7 (witness): queue idempotence at a concrete queue whose single operation
succeeds on the first drain. -/
theorem c7_drain_idempotent_witness :
    (syncWithFirebase c7SyncFn c7Db 0).db.pendingSync = [] ∧
    (syncWithFirebase c7SyncFn (syncWithFirebase c7SyncFn c7Db 0).db
      (syncWithFirebase c7SyncFn c7Db 0).remote).report.total = 0 ∧
    (syncWithFirebase c7SyncFn (syncWithFirebase c7SyncFn c7Db 0).db
      (syncWithFirebase c7SyncFn c7Db 0).remote).attempted = [] ∧
    (syncWithFirebase c7SyncFn (syncWithFirebase c7SyncFn c7Db 0).db
      (syncWithFirebase c7SyncFn c7Db 0).remote).db =
        (syncWithFirebase c7SyncFn c7Db 0).db ∧
    (syncWithFirebase c7SyncFn (syncWithFirebase c7SyncFn c7Db 0).db
      (syncWithFirebase c7SyncFn c7Db 0).remote).remote =
        (syncWithFirebase c7SyncFn c7Db 0).remote :=
  c7_drain_idempotent c7SyncFn c7Db 0 (by decide) (by decide)

/-- Looking up a salt row for owner `v` is unaffected by deleting the rows of a
different owner `uid`. -/
theorem find?_salt_filter_ne (l : List SaltRec) (v uid : String) (hv : v ≠ uid) :
    (l.filter (fun r => r.userId ≠ uid)).find? (fun r => r.userId = v) =
    l.find? (fun r => r.userId = v) := by
  induction l with
  | nil => rfl
  | cons a l ih =>
    by_cases ha : a.userId = uid
    · rw [List.filter_cons_of_neg (by simp [ha]),
        List.find?_cons_of_neg _ (by simp [ha]; intro h2; exact hv h2.symm)]
      exact ih
    · rw [List.filter_cons_of_pos (by simp [ha])]
      by_cases hav : a.userId = v
      · rw [List.find?_cons_of_pos _ (by simp [hav]),
          List.find?_cons_of_pos _ (by simp [hav])]
      · rw [List.find?_cons_of_neg _ (by simp [hav]),
          List.find?_cons_of_neg _ (by simp [hav])]
        exact ih

/-- C9: the owner wipe is atomic and complete.  When the transaction aborts the
database is unchanged; when it commits, listing the owner's notes returns empty,
the pending queue (under any filter, in particular one selecting that owner's
operations) is empty, and the owner's cached salt is gone — never a partial
state, the three deletions being one Dexie read-write transaction modelled as a
single state update. -/
theorem c9_clearUserData_atomic_wipe (txFails : Bool) (db : DB) (uid : String) :
    ((clearUserData txFails db uid).2 = false →
      (clearUserData txFails db uid).1 = db) ∧
    ((clearUserData txFails db uid).2 = true →
      getLocalNotes (clearUserData txFails db uid).1 uid = [] ∧
      (∀ p : PendingOp → Bool,
        (clearUserData txFails db uid).1.pendingSync.filter p = []) ∧
      getEncryptionSalt (clearUserData txFails db uid).1 uid = none) := by
  cases txFails with
  | true => simp [clearUserData]
  | false =>
    simp only [clearUserData, if_neg Bool.false_ne_true]
    refine ⟨by simp, fun _ => ⟨?_, fun p => rfl, ?_⟩⟩
    · simp only [getLocalNotes]
      have hnil : (db.notes.filter (fun n => n.userId ≠ uid)).filter
          (fun n => n.userId = uid) = [] := by
        refine List.filter_eq_nil_iff.mpr ?_
        intro a ha
        have hmem := (List.mem_filter.mp ha).2
        simp at hmem ⊢
        exact hmem
      rw [hnil]
      rfl
    · simp only [getEncryptionSalt]
      have hnone : (db.encryptionKeys.filter (fun r => r.userId ≠ uid)).find?
          (fun r => r.userId = uid) = none := by
        refine List.find?_eq_none.mpr ?_
        intro a ha
        have hmem := (List.mem_filter.mp ha).2
        simp at hmem ⊢
        exact hmem
      rw [hnone]
      rfl

/-- A two-owner database for the C9 witness. -/
def c9Db : DB :=
  { notes := [{ id := "n1", userId := "u1", updatedAt := "t1" },
              { id := "n2", userId := "u2", updatedAt := "t2" }],
    pendingSync := [{ id := 1, noteId := "n2", action := "delete",
                      timestamp := "t3" }],
    nextPendingId := 2,
    encryptionKeys := [{ userId := "u1", salt := "s1", timestamp := "t0" },
                       { userId := "u2", salt := "s2", timestamp := "t0" }] }

/-- C9 (witness): the atomic wipe at a concrete two-owner database. -/
theorem c9_clearUserData_atomic_wipe_witness :
    ((clearUserData false c9Db "u1").2 = false →
      (clearUserData false c9Db "u1").1 = c9Db) ∧
    ((clearUserData false c9Db "u1").2 = true →
      getLocalNotes (clearUserData false c9Db "u1").1 "u1" = [] ∧
      (∀ p : PendingOp → Bool,
        (clearUserData false c9Db "u1").1.pendingSync.filter p = []) ∧
      getEncryptionSalt (clearUserData false c9Db "u1").1 "u1" = none) :=
  c9_clearUserData_atomic_wipe false c9Db "u1"

/-- C10: the frame of `clearUserData`.  On commit it empties the **entire**
pending queue (operations of every owner included), while of the notes and salts
it deletes exactly the given owner's: every other owner's notes survive, only
rows of other owners remain, and both the note listing and the salt lookup of any
other owner are unchanged. -/
theorem c10_clearUserData_frame (db : DB) (uid : String) :
    (clearUserData false db uid).2 = true ∧
    (clearUserData false db uid).1.pendingSync = [] ∧
    (∀ n ∈ db.notes, n.userId ≠ uid → n ∈ (clearUserData false db uid).1.notes) ∧
    (∀ n ∈ (clearUserData false db uid).1.notes, n.userId ≠ uid) ∧
    (∀ v, v ≠ uid →
      getLocalNotes (clearUserData false db uid).1 v = getLocalNotes db v) ∧
    (∀ v, v ≠ uid →
      getEncryptionSalt (clearUserData false db uid).1 v =
        getEncryptionSalt db v) ∧
    getEncryptionSalt (clearUserData false db uid).1 uid = none := by
  simp only [clearUserData, if_neg Bool.false_ne_true]
  refine ⟨trivial, trivial, ?_, ?_, ?_, ?_, ?_⟩
  · intro n hn hne
    exact List.mem_filter.mpr ⟨hn, by simpa using hne⟩
  · intro n hn
    have hmem := (List.mem_filter.mp hn).2
    simpa using hmem
  · intro v hv
    simp only [getLocalNotes]
    have heq : (db.notes.filter (fun n => n.userId ≠ uid)).filter
        (fun n => n.userId = v) = db.notes.filter (fun n => n.userId = v) := by
      rw [List.filter_filter]
      refine List.filter_congr ?_
      intro a _
      by_cases hav : a.userId = v
      · simp [hav, hv]
      · simp [hav]
    rw [heq]
  · intro v hv
    simp only [getEncryptionSalt]
    rw [find?_salt_filter_ne db.encryptionKeys v uid hv]
  · simp only [getEncryptionSalt]
    have hnone : (db.encryptionKeys.filter (fun r => r.userId ≠ uid)).find?
        (fun r => r.userId = uid) = none := by
      refine List.find?_eq_none.mpr ?_
      intro a ha
      have hmem := (List.mem_filter.mp ha).2
      simp at hmem ⊢
      exact hmem
    rw [hnone]
    rfl

/-- A two-owner database for the C10 witness, with pending operations touching
both owners' notes. -/
def c10Db : DB :=
  { notes := [{ id := "n1", userId := "u1", updatedAt := "t1" },
              { id := "n2", userId := "u2", updatedAt := "t2" }],
    pendingSync := [{ id := 1, noteId := "n1", action := "update",
                      timestamp := "t3" },
                    { id := 2, noteId := "n2", action := "delete",
                      timestamp := "t4" }],
    nextPendingId := 3,
    encryptionKeys := [{ userId := "u1", salt := "s1", timestamp := "t0" },
                       { userId := "u2", salt := "s2", timestamp := "t0" }] }

/-- C10 (witness): the frame properties at a concrete two-owner database. -/
theorem c10_clearUserData_frame_witness :
    (clearUserData false c10Db "u1").2 = true ∧
    (clearUserData false c10Db "u1").1.pendingSync = [] ∧
    (∀ n ∈ c10Db.notes, n.userId ≠ "u1" →
      n ∈ (clearUserData false c10Db "u1").1.notes) ∧
    (∀ n ∈ (clearUserData false c10Db "u1").1.notes, n.userId ≠ "u1") ∧
    (∀ v, v ≠ "u1" →
      getLocalNotes (clearUserData false c10Db "u1").1 v =
        getLocalNotes c10Db v) ∧
    (∀ v, v ≠ "u1" →
      getEncryptionSalt (clearUserData false c10Db "u1").1 v =
        getEncryptionSalt c10Db v) ∧
    getEncryptionSalt (clearUserData false c10Db "u1").1 "u1" = none :=
  c10_clearUserData_frame c10Db "u1"
